import Mathlib

/-!
Verification of the asynchronous log-ingestion pipeline of
`api/techniques/async_logging.py` (queue, worker loop, `log_request`,
`setup_async_logging`, `stop_async_logging`).

The pure producer-side helper (`log_request`'s record construction) is
embedded as Lean functions over association lists standing for Python
dicts.  The concurrent part (queue, worker thread, stop call, restart)
is embedded as a small-step interleaving transition system whose steps
mirror individual statements of the Python source; reachability is
`Relation.ReflTransGen` over the step relation.
-/

namespace AsyncLogging

/-- Values stored in a structured-fields mapping.  The source only ever
inspects the `level` value (a string) and inserts a numeric timestamp
(`time.time()`); every other value is passed through opaquely, so a
string/number/other trichotomy suffices. -/
inductive Val where
  | str (s : String)
  | num (t : Int)
  | other (tag : Nat)
deriving DecidableEq, Repr

/-- A Python dict with string keys, as an association list (first match
wins on lookup; the source's dicts have unique keys). -/
abbrev FMap := List (String × Val)

/-- Dict lookup: `d.get(k)` / `k in d`. -/
def lookupF (k : String) : FMap → Option Val
  | [] => none
  | (k', v) :: rest => if k' = k then some v else lookupF k rest

/-- Dict key deletion, the mutation performed by `extra.pop("level", ...)`. -/
def eraseKey (k : String) : FMap → FMap
  | [] => []
  | (k', v) :: rest => if k' = k then eraseKey k rest else (k', v) :: eraseKey k rest

/-- The record `log_request` builds and enqueues:
`{"message": message, "level": level, "extra": extra}`. -/
structure Record where
  message : String
  level : Val
  extra : FMap
deriving DecidableEq, Repr

/-- The five severity channels of the underlying logger
(`logger.debug` … `logger.critical`). -/
inductive Channel where
  | debug | info | warning | error | critical
deriving DecidableEq, Repr

/-- One dispatch call made by the worker to the sink:
`logger.<channel>(message, extra=extra)`. -/
structure Dispatch where
  channel : Channel
  message : String
  extra : FMap
deriving DecidableEq, Repr

/-- ASCII lowercasing of one character, as Python `str.lower` does on
the ASCII level strings in play. -/
def lowerChar (c : Char) : Char :=
  if 'A' ≤ c ∧ c ≤ 'Z' then Char.ofNat (c.toNat + 32) else c

/-- Python `str.lower` restricted to ASCII, which is what the level
strings in play use. -/
def pyLower (s : String) : String := ⟨s.data.map lowerChar⟩

/-- The worker's level dispatch chain (async_logging.py lines 45-57),
applied to the already-lowercased level string: five `elif` branches
and an `else` that defaults to info. -/
def channelOf (s : String) : Channel :=
  if s = "debug" then .debug
  else if s = "info" then .info
  else if s = "warning" then .warning
  else if s = "error" then .error
  else if s = "critical" then .critical
  else .info

/-- The worker's `record.get("level", "info").lower()` (line 41): on a
non-string value, `.lower()` raises `AttributeError`, which the worker's
blanket `except Exception` catches. -/
def resolveLevel : Val → Except String Channel
  | .str s => .ok (channelOf (pyLower s))
  | .num _ => .error "AttributeError"
  | .other _ => .error "AttributeError"

/-- Whether a record's level survives `.lower()` (it is a string). -/
def levelOk (r : Record) : Prop := (resolveLevel r.level).isOk

instance (r : Record) : Decidable (levelOk r) := by
  unfold levelOk; infer_instance

/-- The dispatch call the worker makes for a record whose level string
resolved, carrying the record's message and fields unchanged. -/
def dispatchOf (r : Record) : Dispatch :=
  { channel := match resolveLevel r.level with
      | .ok ch => ch
      | .error _ => .info
    message := r.message
    extra := r.extra }

/-- The line the worker writes to standard error when a dispatch raises
(async_logging.py lines 65-68). -/
def errLine (e : String) : String := "Error in logging thread: " ++ e ++ "\n"

/-- Timestamp injection of `log_request` (lines 82-83): add
`extra["timestamp"] = time.time()` when the key is absent.  Python dict
insertion of a fresh key appends it in iteration order. -/
def addTimestamp (now : Int) (extra : FMap) : FMap :=
  match lookupF "timestamp" extra with
  | some _ => extra
  | none => extra ++ [("timestamp", Val.num now)]

/-- Level extraction of `log_request` (line 86):
`level = extra.pop("level", "info")` — returns the popped value (or the
default) together with the mutated dict. -/
def popLevel (extra : FMap) : Val × FMap :=
  match lookupF "level" extra with
  | some v => (v, eraseKey "level" extra)
  | none => (Val.str "info", extra)

/-- The record construction of `log_request` (lines 78-93), given the
current clock value.  Returns the enqueued record together with the
caller's dict as it stands after the call: the record's `extra` and the
caller's dict are the same (mutated-in-place) object. -/
def log_request (message : String) (extra : Option FMap) (now : Int) :
    Record × FMap :=
  let extra1 := addTimestamp now (extra.getD [])
  let lv := (popLevel extra1).1
  let extra2 := (popLevel extra1).2
  ({ message := message, level := lv, extra := extra2 }, extra2)

/-- Just the record `log_request` enqueues. -/
def mkRecord (message : String) (extra : Option FMap) (now : Int) : Record :=
  (log_request message extra now).1

/-- Insertion into the unbounded `queue.Queue` (line 89): on an
unbounded queue, `put` appends and cannot block or fail. -/
def queuePut (q : List Record) (r : Record) : Except String (List Record) :=
  .ok (q ++ [r])

/-- The whole body of `log_request` as a fallible computation: every
operation it performs (dict lookup, dict insert, dict pop, queue put) is
total, so the result is always `.ok`.  Returns the updated queue, the
enqueued record, and the caller's dict after the call. -/
def logRequestRun (message : String) (extra : Option FMap) (now : Int)
    (q : List Record) : Except String (List Record × Record × FMap) := do
  let (r, extraAfter) := log_request message extra now
  let q' ← queuePut q r
  return (q', r, extraAfter)

/-- Program counter of the worker thread (`log_worker`).  `got r` is the
window between a successful `log_queue.get` and the dispatch;
`exiting` is the window between the loop condition evaluating to false
and the thread actually ending (a submission can still land there). -/
inductive WorkerPC where
  | atLoop
  | got (r : Record)
  | exiting
  | terminated
deriving DecidableEq, Repr

/-- Program counter of the (single) `stop_async_logging` call.
`returnedEmpty` is a return through the `if not log_queue.empty()`
check seeing an empty queue; `returnedJoined` a return from
`log_queue.join()`. -/
inductive StopPC where
  | idle
  | flagSet
  | joining
  | returnedEmpty
  | returnedJoined
deriving DecidableEq, Repr

/-- Global state of the pipeline.  `queue`, `unfinished` (the
`queue.Queue` unfinished-task counter driving `join`), `shouldStop`
(the `should_stop` event) and the worker/stop program counters mirror
the source's module-level state; `sink` (dispatch calls made, in
order), `stderrLog` (fallback-channel lines), `subs` (all records ever
submitted, in order) and `leaked` (entries whose `task_done` was
skipped because their processing raised) are history variables. -/
structure St where
  queue : List Record
  unfinished : Nat
  shouldStop : Bool
  worker : WorkerPC
  stop : StopPC
  sink : List Dispatch
  stderrLog : List String
  subs : List Record
  leaked : Nat
deriving DecidableEq, Repr

/-- Pipeline state right after `setup_async_logging` first runs: empty
queue, stop flag clear, worker thread at the top of its loop. -/
def init : St :=
  { queue := [], unfinished := 0, shouldStop := false, worker := .atLoop,
    stop := .idle, sink := [], stderrLog := [], subs := [], leaked := 0 }

/-- One interleaved step of the system.  Each constructor mirrors a
statement (or an atomic group of statements) of async_logging.py.
`allowSetup` gates the re-invocation of `setup_async_logging`, so that
futures with and without further setup calls can be distinguished. -/
inductive Step (allowSetup : Bool) : St → St → Prop where
  /-- A producer runs `log_request` (lines 78-93): the record is built
  and appended to the queue; `put` raises `unfinished` by one. -/
  | submit (s : St) (message : String) (extra : Option FMap) (now : Int) :
      Step allowSetup s
        { s with queue := s.queue ++ [mkRecord message extra now],
                 subs := s.subs ++ [mkRecord message extra now],
                 unfinished := s.unfinished + 1 }
  /-- The worker's `get(timeout=0.5)` returns the head of a non-empty
  queue (line 38).  The loop condition (line 35) was true because the
  queue is non-empty. -/
  | wkGet (s : St) (r : Record) (rest : List Record) :
      s.worker = .atLoop → s.queue = r :: rest →
      Step allowSetup s { s with worker := .got r, queue := rest }
  /-- The level string resolved and the dispatch call to the sink
  returned normally (lines 41-57), then `task_done` ran (line 60). -/
  | wkDispatchOk (s : St) (r : Record) (ch : Channel) :
      s.worker = .got r → resolveLevel r.level = .ok ch →
      Step allowSetup s
        { s with worker := .atLoop,
                 sink := s.sink ++ [⟨ch, r.message, r.extra⟩],
                 unfinished := s.unfinished - 1 }
  /-- The dispatch call to the sink was made but raised: the blanket
  handler (lines 65-68) writes to stderr and the loop continues;
  `task_done` (line 60) is skipped, so the entry stays unfinished. -/
  | wkDispatchFault (s : St) (r : Record) (ch : Channel) (e : String) :
      s.worker = .got r → resolveLevel r.level = .ok ch →
      Step allowSetup s
        { s with worker := .atLoop,
                 sink := s.sink ++ [⟨ch, r.message, r.extra⟩],
                 stderrLog := s.stderrLog ++ [errLine e],
                 leaked := s.leaked + 1 }
  /-- `record.get("level", "info").lower()` itself raised (non-string
  level value): no sink call is made, the handler writes to stderr, the
  loop continues, `task_done` is skipped. -/
  | wkResolveFault (s : St) (r : Record) (e : String) :
      s.worker = .got r → resolveLevel r.level = .error e →
      Step allowSetup s
        { s with worker := .atLoop,
                 stderrLog := s.stderrLog ++ [errLine e],
                 leaked := s.leaked + 1 }
  /-- The loop condition (line 35) evaluates to false: the stop flag is
  set and the queue was observed empty. -/
  | wkObserveExit (s : St) :
      s.worker = .atLoop → s.shouldStop = true → s.queue = [] →
      Step allowSetup s { s with worker := .exiting }
  /-- The worker thread, having observed a false loop condition,
  actually ends. -/
  | wkExit (s : St) :
      s.worker = .exiting →
      Step allowSetup s { s with worker := .terminated }
  /-- `stop_async_logging` runs `should_stop.set()` (line 145). -/
  | stopSet (s : St) :
      s.stop = .idle →
      Step allowSetup s { s with shouldStop := true, stop := .flagSet }
  /-- `if not log_queue.empty()` (line 148) observes an empty queue:
  `join` is skipped and `stop_async_logging` returns. -/
  | stopCheckEmpty (s : St) :
      s.stop = .flagSet → s.queue = [] →
      Step allowSetup s { s with stop := .returnedEmpty }
  /-- `if not log_queue.empty()` (line 148) observes a non-empty queue:
  the call proceeds to `log_queue.join()` (line 149). -/
  | stopCheckNonempty (s : St) :
      s.stop = .flagSet → s.queue ≠ [] →
      Step allowSetup s { s with stop := .joining }
  /-- `log_queue.join()` returns: the unfinished-task counter reached
  zero, and `stop_async_logging` returns. -/
  | stopJoin (s : St) :
      s.stop = .joining → s.unfinished = 0 →
      Step allowSetup s { s with stop := .returnedJoined }
  /-- `setup_async_logging` is called again after the previous worker
  thread ended (lines 131-133): a fresh worker thread starts at the top
  of its loop.  Nothing clears `should_stop`. -/
  | setupRestart (s : St) :
      allowSetup = true → s.worker = .terminated →
      Step allowSetup s { s with worker := .atLoop }

/-- Reachability in the full system (setup re-invocations allowed). -/
def Reach (s t : St) : Prop := Relation.ReflTransGen (Step true) s t

/-- Reachability along futures in which `setup_async_logging` is not
called again. -/
def ReachNoSetup (s t : St) : Prop := Relation.ReflTransGen (Step false) s t

/-- The record the worker has dequeued but not yet finished processing,
if any. -/
def heldList : WorkerPC → List Record
  | .got r => [r]
  | _ => []

/-- Every record in the list has a string level (so `.lower()` cannot
raise on it). -/
def LevelsOk (l : List Record) : Prop := ∀ r ∈ l, levelOk r

instance (l : List Record) : Decidable (LevelsOk l) := by
  unfold LevelsOk; infer_instance

/-- A record whose level resolved to `ch` dispatches as
`(ch, message, extra)`. -/
theorem dispatchOf_mk {r : Record} {ch : Channel}
    (h : resolveLevel r.level = .ok ch) :
    dispatchOf r = { channel := ch, message := r.message, extra := r.extra } := by
  simp [dispatchOf, h]

/-- The inductive invariant of the pipeline.  `count` is the accounting
of the `queue.Queue` unfinished-task counter; `fifo` says that, as long
as no submitted record has a non-string level, the sink call sequence
is exactly the dispatch image of an initial segment of the submission
sequence, and what is missing from it is exactly the worker's in-hand
record followed by the queue — global FIFO, no loss, no duplication. -/
structure Inv (s : St) : Prop where
  count : s.unfinished = s.queue.length + (heldList s.worker).length + s.leaked
  fifo : LevelsOk s.subs →
    ∃ done, s.subs = done ++ heldList s.worker ++ s.queue ∧
      s.sink = done.map dispatchOf

theorem inv_init : Inv init :=
  ⟨rfl, fun _ => ⟨[], rfl, rfl⟩⟩

theorem inv_step {b : Bool} {s t : St} (hs : Inv s) (hstep : Step b s t) :
    Inv t := by
  obtain ⟨hc, hf⟩ := hs
  cases hstep with
  | submit m e now =>
      refine ⟨?_, ?_⟩
      · dsimp only
        simp only [List.length_append, List.length_cons, List.length_nil]
        omega
      · intro hlv
        dsimp only at hlv ⊢
        have hlv' : LevelsOk s.subs := fun r hr => hlv r (by simp [hr])
        obtain ⟨done, h1, h2⟩ := hf hlv'
        refine ⟨done, ?_, h2⟩
        rw [h1]
        simp [List.append_assoc]
  | wkGet r rest hw hq =>
      refine ⟨?_, ?_⟩
      · dsimp only
        rw [hw, hq] at hc
        simp [heldList] at hc ⊢
        omega
      · intro hlv
        dsimp only at hlv ⊢
        obtain ⟨done, h1, h2⟩ := hf hlv
        refine ⟨done, ?_, h2⟩
        rw [h1, hw, hq]
        simp [heldList]
  | wkDispatchOk r ch hw hres =>
      refine ⟨?_, ?_⟩
      · dsimp only
        rw [hw] at hc
        simp [heldList] at hc ⊢
        omega
      · intro hlv
        dsimp only at hlv ⊢
        obtain ⟨done, h1, h2⟩ := hf hlv
        refine ⟨done ++ [r], ?_, ?_⟩
        · rw [h1, hw]
          simp [heldList]
        · rw [h2, List.map_append]
          simp [dispatchOf_mk hres]
  | wkDispatchFault r ch e hw hres =>
      refine ⟨?_, ?_⟩
      · dsimp only
        rw [hw] at hc
        simp [heldList] at hc ⊢
        omega
      · intro hlv
        dsimp only at hlv ⊢
        obtain ⟨done, h1, h2⟩ := hf hlv
        refine ⟨done ++ [r], ?_, ?_⟩
        · rw [h1, hw]
          simp [heldList]
        · rw [h2, List.map_append]
          simp [dispatchOf_mk hres]
  | wkResolveFault r e hw hres =>
      refine ⟨?_, ?_⟩
      · dsimp only
        rw [hw] at hc
        simp [heldList] at hc ⊢
        omega
      · intro hlv
        dsimp only at hlv ⊢
        obtain ⟨done, h1, _⟩ := hf hlv
        have hr : r ∈ s.subs := by
          rw [h1, hw]
          simp [heldList]
        have hok := hlv r hr
        simp [levelOk, hres, Except.isOk, Except.toBool] at hok
  | wkObserveExit hw hstop hq =>
      refine ⟨?_, ?_⟩
      · dsimp only
        rw [hw] at hc
        simpa [heldList] using hc
      · intro hlv
        dsimp only at hlv ⊢
        obtain ⟨done, h1, h2⟩ := hf hlv
        refine ⟨done, ?_, h2⟩
        rw [h1, hw]
        simp [heldList]
  | wkExit hw =>
      refine ⟨?_, ?_⟩
      · dsimp only
        rw [hw] at hc
        simpa [heldList] using hc
      · intro hlv
        dsimp only at hlv ⊢
        obtain ⟨done, h1, h2⟩ := hf hlv
        refine ⟨done, ?_, h2⟩
        rw [h1, hw]
        simp [heldList]
  | stopSet h => exact ⟨hc, hf⟩
  | stopCheckEmpty h hq => exact ⟨hc, hf⟩
  | stopCheckNonempty h hq => exact ⟨hc, hf⟩
  | stopJoin h hu => exact ⟨hc, hf⟩
  | setupRestart hb hw =>
      refine ⟨?_, ?_⟩
      · dsimp only
        rw [hw] at hc
        simpa [heldList] using hc
      · intro hlv
        dsimp only at hlv ⊢
        obtain ⟨done, h1, h2⟩ := hf hlv
        refine ⟨done, ?_, h2⟩
        rw [h1, hw]
        simp [heldList]

/-- The invariant propagates along any reachability chain. -/
theorem inv_mono {b : Bool} {s t : St}
    (h : Relation.ReflTransGen (Step b) s t) (hs : Inv s) : Inv t := by
  induction h with
  | refl => exact hs
  | tail _ hstep ih => exact inv_step ih hstep

/-- Every reachable state satisfies the invariant. -/
theorem inv_of_reach {s : St} (h : Reach init s) : Inv s :=
  inv_mono h inv_init

/-- Schedulable events, one per `Step` constructor, used to build
concrete interleavings executably. -/
inductive Ev where
  | submit (message : String) (extra : Option FMap) (now : Int)
  | get
  | dispatchOk
  | dispatchFault (e : String)
  | resolveFault
  | observeExit
  | wExit
  | stopSet
  | stopCheckEmpty
  | stopCheckNonempty
  | stopJoin
  | setup
deriving DecidableEq, Repr

/-- Executable one-step interpreter: returns the successor state when
the event's guard holds in `s`, and `none` otherwise. -/
def evalEv (b : Bool) (s : St) : Ev → Option St
  | .submit m e now =>
      some { s with queue := s.queue ++ [mkRecord m e now],
                    subs := s.subs ++ [mkRecord m e now],
                    unfinished := s.unfinished + 1 }
  | .get =>
      match s.worker, s.queue with
      | .atLoop, r :: rest => some { s with worker := .got r, queue := rest }
      | _, _ => none
  | .dispatchOk =>
      match s.worker with
      | .got r =>
          match resolveLevel r.level with
          | .ok ch =>
              some { s with worker := .atLoop,
                            sink := s.sink ++ [⟨ch, r.message, r.extra⟩],
                            unfinished := s.unfinished - 1 }
          | .error _ => none
      | _ => none
  | .dispatchFault e =>
      match s.worker with
      | .got r =>
          match resolveLevel r.level with
          | .ok ch =>
              some { s with worker := .atLoop,
                            sink := s.sink ++ [⟨ch, r.message, r.extra⟩],
                            stderrLog := s.stderrLog ++ [errLine e],
                            leaked := s.leaked + 1 }
          | .error _ => none
      | _ => none
  | .resolveFault =>
      match s.worker with
      | .got r =>
          match resolveLevel r.level with
          | .error e =>
              some { s with worker := .atLoop,
                            stderrLog := s.stderrLog ++ [errLine e],
                            leaked := s.leaked + 1 }
          | .ok _ => none
      | _ => none
  | .observeExit =>
      if s.worker = WorkerPC.atLoop ∧ s.shouldStop = true ∧ s.queue = [] then
        some { s with worker := .exiting }
      else none
  | .wExit =>
      if s.worker = WorkerPC.exiting then
        some { s with worker := .terminated }
      else none
  | .stopSet =>
      if s.stop = StopPC.idle then
        some { s with shouldStop := true, stop := .flagSet }
      else none
  | .stopCheckEmpty =>
      if s.stop = StopPC.flagSet ∧ s.queue = [] then
        some { s with stop := .returnedEmpty }
      else none
  | .stopCheckNonempty =>
      if s.stop = StopPC.flagSet ∧ s.queue ≠ [] then
        some { s with stop := .joining }
      else none
  | .stopJoin =>
      if s.stop = StopPC.joining ∧ s.unfinished = 0 then
        some { s with stop := .returnedJoined }
      else none
  | .setup =>
      if b = true ∧ s.worker = WorkerPC.terminated then
        some { s with worker := .atLoop }
      else none

/-- Running a schedule of events from a state. -/
def run (b : Bool) (s : St) : List Ev → Option St
  | [] => some s
  | ev :: rest =>
      match evalEv b s ev with
      | some t => run b t rest
      | none => none

/-- A successful `evalEv` is a genuine step of the relation. -/
theorem step_of_evalEv {b : Bool} {s t : St} {ev : Ev}
    (h : evalEv b s ev = some t) : Step b s t := by
  cases ev with
  | submit m e now =>
      simp only [evalEv, Option.some_inj] at h
      exact h ▸ Step.submit s m e now
  | get =>
      simp only [evalEv] at h
      split at h
      next r rest hw hq =>
        simp only [Option.some_inj] at h
        exact h ▸ Step.wkGet s r rest hw hq
      next => exact absurd h (by simp)
  | dispatchOk =>
      simp only [evalEv] at h
      split at h
      next r hw =>
        split at h
        next ch hres =>
          simp only [Option.some_inj] at h
          exact h ▸ Step.wkDispatchOk s r ch hw hres
        next => exact absurd h (by simp)
      next => exact absurd h (by simp)
  | dispatchFault e =>
      simp only [evalEv] at h
      split at h
      next r hw =>
        split at h
        next ch hres =>
          simp only [Option.some_inj] at h
          exact h ▸ Step.wkDispatchFault s r ch e hw hres
        next => exact absurd h (by simp)
      next => exact absurd h (by simp)
  | resolveFault =>
      simp only [evalEv] at h
      split at h
      next r hw =>
        split at h
        next e hres =>
          simp only [Option.some_inj] at h
          exact h ▸ Step.wkResolveFault s r e hw hres
        next => exact absurd h (by simp)
      next => exact absurd h (by simp)
  | observeExit =>
      simp only [evalEv] at h
      split at h
      next hcond =>
        simp only [Option.some_inj] at h
        exact h ▸ Step.wkObserveExit s hcond.1 hcond.2.1 hcond.2.2
      next => exact absurd h (by simp)
  | wExit =>
      simp only [evalEv] at h
      split at h
      next hcond =>
        simp only [Option.some_inj] at h
        exact h ▸ Step.wkExit s hcond
      next => exact absurd h (by simp)
  | stopSet =>
      simp only [evalEv] at h
      split at h
      next hcond =>
        simp only [Option.some_inj] at h
        exact h ▸ Step.stopSet s hcond
      next => exact absurd h (by simp)
  | stopCheckEmpty =>
      simp only [evalEv] at h
      split at h
      next hcond =>
        simp only [Option.some_inj] at h
        exact h ▸ Step.stopCheckEmpty s hcond.1 hcond.2
      next => exact absurd h (by simp)
  | stopCheckNonempty =>
      simp only [evalEv] at h
      split at h
      next hcond =>
        simp only [Option.some_inj] at h
        exact h ▸ Step.stopCheckNonempty s hcond.1 hcond.2
      next => exact absurd h (by simp)
  | stopJoin =>
      simp only [evalEv] at h
      split at h
      next hcond =>
        simp only [Option.some_inj] at h
        exact h ▸ Step.stopJoin s hcond.1 hcond.2
      next => exact absurd h (by simp)
  | setup =>
      simp only [evalEv] at h
      split at h
      next hcond =>
        simp only [Option.some_inj] at h
        exact h ▸ Step.setupRestart s hcond.1 hcond.2
      next => exact absurd h (by simp)

/-- A successful run of a schedule yields a reachability chain. -/
theorem reach_of_run {b : Bool} {s t : St} {evs : List Ev}
    (h : run b s evs = some t) : Relation.ReflTransGen (Step b) s t := by
  induction evs generalizing s with
  | nil =>
      simp only [run, Option.some_inj] at h
      exact h ▸ Relation.ReflTransGen.refl
  | cons ev rest ih =>
      simp only [run] at h
      split at h
      next u hu => exact Relation.ReflTransGen.head (step_of_evalEv hu) (ih h)
      next => exact absurd h (by simp)

/-- Lookup distributes over append when the key misses the first part. -/
theorem lookupF_append_none {k : String} {m₁ : FMap} (m₂ : FMap)
    (h : lookupF k m₁ = none) : lookupF k (m₁ ++ m₂) = lookupF k m₂ := by
  induction m₁ with
  | nil => rfl
  | cons p rest ih =>
      simp only [List.cons_append, lookupF] at h ⊢
      split at h
      next => exact absurd h (by simp)
      next hne =>
        rw [if_neg hne]
        exact ih h

/-- Lookup distributes over append when the key hits the first part. -/
theorem lookupF_append_some {k : String} {m₁ : FMap} {v : Val} (m₂ : FMap)
    (h : lookupF k m₁ = some v) : lookupF k (m₁ ++ m₂) = some v := by
  induction m₁ with
  | nil => simp [lookupF] at h
  | cons p rest ih =>
      simp only [List.cons_append, lookupF] at h ⊢
      split at h
      next heq =>
        rw [if_pos heq]
        exact h
      next hne =>
        rw [if_neg hne]
        exact ih h

/-- Deleting a key removes it from lookup. -/
theorem lookupF_eraseKey_self (k : String) (m : FMap) :
    lookupF k (eraseKey k m) = none := by
  induction m with
  | nil => rfl
  | cons p rest ih =>
      obtain ⟨a, v⟩ := p
      by_cases ha : a = k
      · simpa [eraseKey, ha] using ih
      · simpa [eraseKey, lookupF, ha] using ih

/-- Deleting one key leaves lookups of other keys unchanged. -/
theorem lookupF_eraseKey_ne {k k' : String} (m : FMap) (h : k ≠ k') :
    lookupF k (eraseKey k' m) = lookupF k m := by
  induction m with
  | nil => rfl
  | cons p rest ih =>
      obtain ⟨a, v⟩ := p
      by_cases ha : a = k'
      · have hak : a ≠ k := by rw [ha]; exact fun he => h he.symm
        simp [eraseKey, lookupF, ha, hak, Ne.symm h, ih]
      · by_cases hak : a = k
        · simp [eraseKey, lookupF, ha, hak, h]
        · simp [eraseKey, lookupF, ha, hak, ih]

/-- Timestamp injection leaves every other key's lookup unchanged. -/
theorem lookupF_addTimestamp_ne {k : String} (now : Int) (m : FMap)
    (h : k ≠ "timestamp") : lookupF k (addTimestamp now m) = lookupF k m := by
  unfold addTimestamp
  split
  next => rfl
  next =>
    cases hkm : lookupF k m with
    | some v => exact lookupF_append_some _ hkm
    | none =>
        rw [lookupF_append_none _ hkm]
        simp [lookupF, Ne.symm h]

/-- Timestamp injection on a dict lacking the key installs the clock
value. -/
theorem lookupF_addTimestamp_self (now : Int) {m : FMap}
    (h : lookupF "timestamp" m = none) :
    lookupF "timestamp" (addTimestamp now m) = some (Val.num now) := by
  unfold addTimestamp
  rw [h]
  rw [lookupF_append_none _ h]
  simp [lookupF]

/-- Timestamp injection on a dict already carrying the key is the
identity. -/
theorem addTimestamp_of_some (now : Int) {m : FMap} {v : Val}
    (h : lookupF "timestamp" m = some v) : addTimestamp now m = m := by
  unfold addTimestamp
  rw [h]

/-- Popping the level leaves lookups of other keys unchanged. -/
theorem lookupF_popLevel_ne {k : String} (m : FMap) (h : k ≠ "level") :
    lookupF k (popLevel m).2 = lookupF k m := by
  unfold popLevel
  split
  next => exact lookupF_eraseKey_ne m h
  next => rfl

/-- After popping, the dict no longer binds `level`. -/
theorem lookupF_popLevel_self (m : FMap) :
    lookupF "level" (popLevel m).2 = none := by
  unfold popLevel
  split
  next => exact lookupF_eraseKey_self _ m
  next h => exact h

/-- The popped value is the dict's binding when present. -/
theorem popLevel_fst_of_some {m : FMap} {v : Val}
    (h : lookupF "level" m = some v) : (popLevel m).1 = v := by
  unfold popLevel
  rw [h]

/-- The popped value defaults to the string `info` when absent. -/
theorem popLevel_fst_of_none {m : FMap} (h : lookupF "level" m = none) :
    (popLevel m).1 = Val.str "info" := by
  unfold popLevel
  rw [h]

/-- Unfolding: the enqueued record's fields dict. -/
theorem mkRecord_extra (msg : String) (extra : Option FMap) (now : Int) :
    (mkRecord msg extra now).extra =
      (popLevel (addTimestamp now (extra.getD []))).2 := rfl

/-- Unfolding: the enqueued record's level value. -/
theorem mkRecord_level (msg : String) (extra : Option FMap) (now : Int) :
    (mkRecord msg extra now).level =
      (popLevel (addTimestamp now (extra.getD []))).1 := rfl

/-- The caller's dict as it stands after `log_request` returns (the
same object the enqueued record references). -/
def callerDictAfter (msg : String) (extra0 : FMap) (now : Int) : FMap :=
  (log_request msg (some extra0) now).2

/-- C5 counterexample: the claim quantifies over level strings that are
not literally one of `debug`/`info`/`warning`/`error`/`critical` and
asserts they dispatch as info; but the worker lowercases first
(line 41), so the submitted level string `DEBUG` — not a member of that
set — is dispatched on the debug channel, not info. -/
theorem c5_counterexample :
    resolveLevel (Val.str "DEBUG") = Except.ok Channel.debug ∧
    "DEBUG" ∉ (["debug", "info", "warning", "error", "critical"] : List String) ∧
    Channel.debug ≠ Channel.info := by
  refine ⟨?_, by decide, by decide⟩
  show Except.ok (channelOf (pyLower "DEBUG")) = Except.ok Channel.debug
  have h : channelOf (pyLower "DEBUG") = Channel.debug := by decide
  rw [h]

/-- C5 (amended): an entry whose level string LOWERCASES to something
outside {debug, info, warning, error, critical} is dispatched at level
info, and an entry submitted with no `level` key at all gets the string
`info` and is dispatched at level info.  (Recognition of the five level
names is case-insensitive.) -/
theorem c5_level_fallback (lvl msg : String) (extra : Option FMap) (now : Int)
    (h : pyLower lvl ∉ (["debug", "info", "warning", "error", "critical"] : List String))
    (h2 : lookupF "level" (extra.getD []) = none) :
    resolveLevel (Val.str lvl) = Except.ok Channel.info ∧
    resolveLevel (mkRecord msg extra now).level = Except.ok Channel.info := by
  simp only [List.mem_cons, List.not_mem_nil, or_false, not_or] at h
  obtain ⟨h1, h2', h3, h4, h5⟩ := h
  constructor
  · simp [resolveLevel, channelOf, h1, h2', h3, h4, h5]
  · rw [mkRecord_level]
    have hts : lookupF "level" (addTimestamp now (extra.getD [])) = none := by
      rw [lookupF_addTimestamp_ne now _ (by decide)]
      exact h2
    rw [popLevel_fst_of_none hts]
    show Except.ok (channelOf (pyLower "info")) = Except.ok Channel.info
    have hi : channelOf (pyLower "info") = Channel.info := by decide
    rw [hi]

/-- C5 witness: the spec's own example, level string `verbose`. -/
theorem c5_level_fallback_witness :
    resolveLevel (Val.str "verbose") = Except.ok Channel.info ∧
    resolveLevel (mkRecord "m" none 0).level = Except.ok Channel.info :=
  c5_level_fallback "verbose" "m" none 0 (by decide) rfl

/-- C6: an entry submitted without a `timestamp` field (including with
no fields at all) reaches the sink carrying `timestamp` bound to the
numeric clock value; a caller-supplied timestamp is left unchanged; and
the worker hands the record's fields to the sink as they are. -/
theorem c6_timestamp_injection (msg : String) (extra0 : FMap) (now : Int) :
    (lookupF "timestamp" extra0 = none →
      lookupF "timestamp" (mkRecord msg (some extra0) now).extra =
        some (Val.num now)) ∧
    (∀ v, lookupF "timestamp" extra0 = some v →
      lookupF "timestamp" (mkRecord msg (some extra0) now).extra = some v) ∧
    lookupF "timestamp" (mkRecord msg none now).extra = some (Val.num now) ∧
    (dispatchOf (mkRecord msg (some extra0) now)).extra =
      (mkRecord msg (some extra0) now).extra := by
  refine ⟨?_, ?_, ?_, rfl⟩
  · intro h
    rw [mkRecord_extra]
    rw [lookupF_popLevel_ne _ (by decide)]
    exact lookupF_addTimestamp_self now (by simpa using h)
  · intro v h
    rw [mkRecord_extra]
    rw [lookupF_popLevel_ne _ (by decide)]
    rw [Option.getD_some, addTimestamp_of_some now h]
    exact h
  · rw [mkRecord_extra]
    rw [lookupF_popLevel_ne _ (by decide)]
    exact lookupF_addTimestamp_self now rfl

/-- C6 witness at a concrete call. -/
theorem c6_timestamp_injection_witness :
    lookupF "timestamp" (mkRecord "m" (some [("a", Val.str "x")]) 7).extra =
        some (Val.num 7) ∧
    lookupF "timestamp"
        (mkRecord "m" (some [("timestamp", Val.num 3)]) 7).extra =
      some (Val.num 3) :=
  ⟨(c6_timestamp_injection "m" [("a", Val.str "x")] 7).1 rfl,
   (c6_timestamp_injection "m" [("timestamp", Val.num 3)] 7).2.1
     (Val.num 3) rfl⟩

/-- C7: a `level` key in the caller's fields becomes the entry's
severity value and is removed before the record is built, so the fields
the sink sees never bind `level`; with no `level` key the severity is
the string `info`. -/
theorem c7_level_key_popped (msg : String) (extra0 : FMap) (now : Int) :
    (∀ v, lookupF "level" extra0 = some v →
      (mkRecord msg (some extra0) now).level = v) ∧
    (lookupF "level" extra0 = none →
      (mkRecord msg (some extra0) now).level = Val.str "info") ∧
    lookupF "level" (mkRecord msg (some extra0) now).extra = none := by
  refine ⟨?_, ?_, ?_⟩
  · intro v h
    rw [mkRecord_level]
    exact popLevel_fst_of_some
      (by rw [lookupF_addTimestamp_ne now _ (by decide)]; simpa using h)
  · intro h
    rw [mkRecord_level]
    exact popLevel_fst_of_none
      (by rw [lookupF_addTimestamp_ne now _ (by decide)]; simpa using h)
  · rw [mkRecord_extra]
    exact lookupF_popLevel_self _

/-- C7 witness at a concrete call. -/
theorem c7_level_key_popped_witness :
    (mkRecord "m" (some [("level", Val.str "error")]) 0).level =
        Val.str "error" ∧
    lookupF "level" (mkRecord "m" (some [("level", Val.str "error")]) 0).extra =
      none :=
  ⟨(c7_level_key_popped "m" [("level", Val.str "error")] 0).1
      (Val.str "error") rfl,
   (c7_level_key_popped "m" [("level", Val.str "error")] 0).2.2⟩

/-- C8: `log_request` never raises to its caller — every operation in
its body (dict lookup, dict insert, dict pop, insertion into the
unbounded queue) is total, so for every message, fields and queue state
the submission returns normally with the entry enqueued.  (In this
model the unbounded queue's `put` cannot fail, so the claim's
internal-fault clause has no instance to exercise.) -/
theorem c8_submission_never_throws (msg : String) (extra : Option FMap)
    (now : Int) (q : List Record) :
    logRequestRun msg extra now q =
      Except.ok (q ++ [mkRecord msg extra now], mkRecord msg extra now,
        (log_request msg extra now).2) := rfl

/-- C10: `log_request` mutates the caller-supplied dict in place: after
the call the caller's own dict is exactly the record's fields object —
`level` is gone, `timestamp` was inserted when absent (and kept intact
when present), and every other key's binding is untouched. -/
theorem c10_caller_dict_mutation (msg : String) (extra0 : FMap) (now : Int) :
    (mkRecord msg (some extra0) now).extra = callerDictAfter msg extra0 now ∧
    lookupF "level" (callerDictAfter msg extra0 now) = none ∧
    (lookupF "timestamp" extra0 = none →
      lookupF "timestamp" (callerDictAfter msg extra0 now) =
        some (Val.num now)) ∧
    (∀ v, lookupF "timestamp" extra0 = some v →
      lookupF "timestamp" (callerDictAfter msg extra0 now) = some v) ∧
    (∀ k, k ≠ "level" → k ≠ "timestamp" →
      lookupF k (callerDictAfter msg extra0 now) = lookupF k extra0) := by
  have hc : callerDictAfter msg extra0 now =
      (popLevel (addTimestamp now extra0)).2 := rfl
  refine ⟨rfl, ?_, ?_, ?_, ?_⟩
  · rw [hc]
    exact lookupF_popLevel_self _
  · intro h
    rw [hc, lookupF_popLevel_ne _ (by decide)]
    exact lookupF_addTimestamp_self now h
  · intro v h
    rw [hc, lookupF_popLevel_ne _ (by decide), addTimestamp_of_some now h]
    exact h
  · intro k hk1 hk2
    rw [hc, lookupF_popLevel_ne _ hk1, lookupF_addTimestamp_ne now _ hk2]

/-- C10 witness at a concrete call: caller's dict
`{"level": "debug", "a": 1}` after the call lost `level`, gained a
timestamp, and kept `a`. -/
theorem c10_caller_dict_mutation_witness :
    lookupF "level"
        (callerDictAfter "m" [("level", Val.str "debug"), ("a", Val.num 1)] 9) =
      none ∧
    lookupF "timestamp"
        (callerDictAfter "m" [("level", Val.str "debug"), ("a", Val.num 1)] 9) =
      some (Val.num 9) ∧
    lookupF "a"
        (callerDictAfter "m" [("level", Val.str "debug"), ("a", Val.num 1)] 9) =
      some (Val.num 1) :=
  ⟨(c10_caller_dict_mutation "m" [("level", Val.str "debug"), ("a", Val.num 1)] 9).2.1,
   (c10_caller_dict_mutation "m" [("level", Val.str "debug"), ("a", Val.num 1)] 9).2.2.1 rfl,
   by
    have h := (c10_caller_dict_mutation "m"
      [("level", Val.str "debug"), ("a", Val.num 1)] 9).2.2.2.2
      "a" (by decide) (by decide)
    rw [h]
    rfl⟩

/-- The leak counter never decreases along a step. -/
theorem leaked_mono {b : Bool} {s t : St} (h : Step b s t) :
    s.leaked ≤ t.leaked := by
  cases h <;> dsimp only <;> omega

/-- Once the stop call is blocked in `log_queue.join()` with at least
one leaked (never-`task_done`-ed) entry outstanding, no step lets it
return: the join's wait condition `unfinished = 0` is unreachable. -/
theorem stop_stuck {b : Bool} {s t : St} (h : Step b s t) (hinv : Inv s)
    (hleak : 1 ≤ s.leaked) (hstop : s.stop = StopPC.joining) :
    t.stop = StopPC.joining := by
  cases h with
  | stopSet h' =>
      rw [hstop] at h'
      exact absurd h' (by decide)
  | stopCheckEmpty h' hq =>
      rw [hstop] at h'
      exact absurd h' (by decide)
  | stopCheckNonempty h' hq => rfl
  | stopJoin h' hu =>
      exfalso
      have hc := hinv.count
      omega
  | submit m e now => exact hstop
  | wkGet r rest hw hq => exact hstop
  | wkDispatchOk r ch hw hres => exact hstop
  | wkDispatchFault r ch e hw hres => exact hstop
  | wkResolveFault r e hw hres => exact hstop
  | wkObserveExit hw hs hq => exact hstop
  | wkExit hw => exact hstop
  | setupRestart hb hw => exact hstop

/-- C1: in every reachable state (for submissions whose level values
are strings, the only ones the worker can process without an
`AttributeError`), the sequence of dispatch calls made to the sink is
the dispatch image of an initial segment of the submission sequence —
global FIFO, no reordering, no duplication, no priority — and once the
worker has drained (empty queue, no record in hand) the sink has
received exactly the whole submission sequence in order. -/
theorem c1_fifo (s : St) (h : Reach init s) (hlv : LevelsOk s.subs) :
    s.sink = (s.subs.take s.sink.length).map dispatchOf ∧
    (s.queue = [] → heldList s.worker = [] →
      s.sink = s.subs.map dispatchOf) := by
  obtain ⟨done, h1, h2⟩ := (inv_of_reach h).fifo hlv
  constructor
  · rw [h2, h1]
    simp only [List.length_map, List.append_assoc, List.take_left]
  · intro hq hh
    rw [h2, h1, hq, hh]
    simp

/-- Concrete schedule for the C1 witness: two producers, then the
worker drains both. -/
def c1evs : List Ev :=
  [.submit "a" none 0, .submit "b" (some [("level", Val.str "warning")]) 1,
   .get, .dispatchOk, .get, .dispatchOk]

/-- Final state of the C1 witness schedule. -/
def c1state : St := (run true init c1evs).getD init

/-- C1 witness: the FIFO theorem applied to the concrete two-entry
schedule. -/
theorem c1_fifo_witness :
    c1state.sink = (c1state.subs.take c1state.sink.length).map dispatchOf ∧
    (c1state.queue = [] → heldList c1state.worker = [] →
      c1state.sink = c1state.subs.map dispatchOf) :=
  c1_fifo c1state
    (reach_of_run (show run true init c1evs = some c1state from rfl))
    (by decide)

/-- Schedule exhibiting the C2 race: one entry is submitted, the worker
dequeues it, and only then does stop run — its emptiness check sees an
empty queue and returns at once, before the entry reaches the sink. -/
def c2evs : List Ev := [.submit "a" none 0, .get, .stopSet, .stopCheckEmpty]

/-- Final state of the C2 race schedule. -/
def c2state : St := (run true init c2evs).getD init

/-- C2 counterexample: a reachable state in which `stop_async_logging`
has returned (through the `log_queue.empty()` check), exactly one entry
was submitted before stop was called and none after, and the sink has
received nothing — the dequeued-but-undispatched entry is still in the
worker's hands, so at the moment stop() returns the sink has 0 of the
K = 1 entries. -/
theorem c2_counterexample :
    Reach init c2state ∧
    c2state.stop = StopPC.returnedEmpty ∧
    c2state.subs.length = 1 ∧
    c2state.sink = [] ∧
    c2state.worker = WorkerPC.got (mkRecord "a" none 0) :=
  ⟨reach_of_run (show run true init c2evs = some c2state from rfl),
   by decide, by decide, by decide, by decide⟩

/-- C2 (amended): when stop() returns through `log_queue.join()` — that
is, at any reachable moment when the unfinished-task counter has hit
zero while the stop call waits in `join` — the sink has received
exactly the submitted entries, in submission order.  (The other return
path, through the emptiness check, can race with a dequeued entry still
in the worker's hands; see the counterexample.) -/
theorem c2_drain_on_join (s : St) (h : Reach init s) (hlv : LevelsOk s.subs)
    (hstop : s.stop = StopPC.joining) (hu : s.unfinished = 0) :
    s.sink = s.subs.map dispatchOf := by
  obtain ⟨hc, hf⟩ := inv_of_reach h
  obtain ⟨done, h1, h2⟩ := hf hlv
  have hq : s.queue = [] := List.length_eq_zero.mp (by omega)
  have hh : heldList s.worker = [] := List.length_eq_zero.mp (by omega)
  rw [h2, h1, hq, hh]
  simp

/-- Schedule for the C2 witness: stop sees a non-empty queue, waits in
join, and the worker drains the entry before join's condition is met. -/
def c2wevs : List Ev :=
  [.submit "a" none 0, .stopSet, .stopCheckNonempty, .get, .dispatchOk]

/-- Final state of the C2 witness schedule. -/
def c2wstate : St := (run true init c2wevs).getD init

/-- C2 witness: the drain-on-join theorem applied to a concrete
schedule that reaches `join` with the queue fully drained. -/
theorem c2_drain_on_join_witness :
    c2wstate.sink = c2wstate.subs.map dispatchOf :=
  c2_drain_on_join c2wstate
    (reach_of_run (show run true init c2wevs = some c2wstate from rfl))
    (by decide) (by decide) (by decide)

/-- Schedule exhibiting the C3 hang: stop proceeds to join on a
non-empty queue; the single entry's dispatch raises, so its
`task_done` is skipped; the worker then drains out and terminates, and
the unfinished-task counter is stuck at 1. -/
def c3evs : List Ev :=
  [.submit "a" none 0, .stopSet, .stopCheckNonempty, .get,
   .dispatchFault "boom", .observeExit, .wExit]

/-- Final state of the C3 hang schedule. -/
def c3state : St := (run true init c3evs).getD init

/-- C3 counterexample: a reachable state in which the stop call is
blocked in `log_queue.join()` and remains so in every possible future —
stop_async_logging never returns, so it has no bounded grace period,
discards nothing, and emits no warning; it simply hangs. -/
theorem c3_counterexample :
    Reach init c3state ∧
    c3state.stop = StopPC.joining ∧
    ∀ t, Reach c3state t → t.stop = StopPC.joining := by
  have hrun : run true init c3evs = some c3state := rfl
  have hreach : Reach init c3state := reach_of_run hrun
  refine ⟨hreach, by decide, ?_⟩
  intro t ht
  have ht' : Relation.ReflTransGen (Step true) c3state t := ht
  have key : ∀ u, Relation.ReflTransGen (Step true) c3state u →
      Inv u ∧ 1 ≤ u.leaked ∧ u.stop = StopPC.joining := by
    intro u hu
    induction hu with
    | refl => exact ⟨inv_of_reach hreach, by decide, by decide⟩
    | tail hs hstep ih =>
        obtain ⟨hinv, hleak, hstop⟩ := ih
        exact ⟨inv_step hinv hstep, le_trans hleak (leaked_mono hstep),
          stop_stuck hstep hinv hleak hstop⟩
  exact (key t ht').2.2

/-- C3 (amended): stop_async_logging has no grace period and no
discard-with-warning path.  Every submitted entry (with a string level)
is always accounted for — dispatched, in the worker's hands, or still
queued — and no transition taken by the stop call itself touches the
stderr channel, the queue, or the sink; instead of a bounded wait,
stop blocks until the unfinished-task counter reaches zero (and can
therefore hang forever, per the counterexample). -/
theorem c3_stop_no_discard :
    (∀ s, Reach init s → LevelsOk s.subs →
      s.subs.length =
        s.sink.length + (heldList s.worker).length + s.queue.length) ∧
    (∀ (b : Bool) (s t : St), Step b s t → s.stop ≠ t.stop →
      t.stderrLog = s.stderrLog ∧ t.queue = s.queue ∧ t.sink = s.sink) := by
  constructor
  · intro s h hlv
    obtain ⟨done, h1, h2⟩ := (inv_of_reach h).fifo hlv
    rw [h1, h2]
    simp only [List.length_append, List.length_map]
  · intro b s t hstep hne
    cases hstep with
    | stopSet h => exact ⟨rfl, rfl, rfl⟩
    | stopCheckEmpty h hq => exact ⟨rfl, rfl, rfl⟩
    | stopCheckNonempty h hq => exact ⟨rfl, rfl, rfl⟩
    | stopJoin h hu => exact ⟨rfl, rfl, rfl⟩
    | submit m e now => exact absurd rfl hne
    | wkGet r rest hw hq => exact absurd rfl hne
    | wkDispatchOk r ch hw hres => exact absurd rfl hne
    | wkDispatchFault r ch e hw hres => exact absurd rfl hne
    | wkResolveFault r e hw hres => exact absurd rfl hne
    | wkObserveExit hw hs hq => exact absurd rfl hne
    | wkExit hw => exact absurd rfl hne
    | setupRestart hb hw => exact absurd rfl hne

/-- Schedule for the C3 witness (a single processed submission). -/
def c3wevs : List Ev := [.submit "a" none 0, .get, .dispatchOk]

/-- Final state of the C3 witness schedule. -/
def c3wstate : St := (run true init c3wevs).getD init

/-- C3 witness: the accounting part applied at a concrete reachable
state, and the stop-transition part applied to the concrete
`should_stop.set()` step out of the initial state. -/
theorem c3_stop_no_discard_witness :
    c3wstate.subs.length =
      c3wstate.sink.length + (heldList c3wstate.worker).length +
        c3wstate.queue.length ∧
    (({ init with shouldStop := true, stop := StopPC.flagSet } : St).stderrLog =
        init.stderrLog ∧
      ({ init with shouldStop := true, stop := StopPC.flagSet } : St).queue =
        init.queue ∧
      ({ init with shouldStop := true, stop := StopPC.flagSet } : St).sink =
        init.sink) :=
  ⟨c3_stop_no_discard.1 c3wstate
    (reach_of_run (show run true init c3wevs = some c3wstate from rfl))
    (by decide),
   c3_stop_no_discard.2 true init _ (Step.stopSet init rfl) (by decide)⟩

/-- Schedule for C4: ten entries are submitted; the sink's dispatch
call raises on the fifth; the worker keeps going and dispatches all the
others. -/
def c4evs : List Ev :=
  [.submit "m1" none 1, .submit "m2" none 2, .submit "m3" none 3,
   .submit "m4" none 4, .submit "m5" none 5, .submit "m6" none 6,
   .submit "m7" none 7, .submit "m8" none 8, .submit "m9" none 9,
   .submit "m10" none 10,
   .get, .dispatchOk, .get, .dispatchOk, .get, .dispatchOk, .get, .dispatchOk,
   .get, .dispatchFault "boom",
   .get, .dispatchOk, .get, .dispatchOk, .get, .dispatchOk, .get, .dispatchOk,
   .get, .dispatchOk]

/-- Final state of the C4 schedule. -/
def c4state : St := (run true init c4evs).getD init

/-- C4: dispatch faults are isolated per entry.  In the concrete
scenario where the sink raises on entry five of ten, the exception is
caught and reported on the fallback stderr channel, the worker loop is
back at its top, and the sink received the dispatch calls of all ten
submitted entries in submission order — entries 1-4 and 6-10 are all
dispatched. -/
theorem c4_fault_isolation :
    Reach init c4state ∧
    c4state.subs.length = 10 ∧
    c4state.sink = c4state.subs.map dispatchOf ∧
    c4state.stderrLog = [errLine "boom"] ∧
    c4state.leaked = 1 ∧
    c4state.queue = [] ∧
    c4state.worker = WorkerPC.atLoop :=
  ⟨reach_of_run (show run true init c4evs = some c4state from rfl),
   by decide, by decide, by decide, by decide, by decide, by decide⟩

/-- Schedule exhibiting the C9 failure: stop runs to completion on an
idle pipeline and the worker terminates; `setup_async_logging` is
called again, but `should_stop` is still set, so the freshly spawned
worker observes (stop set, queue empty) and terminates at once; an
entry submitted after the restart then sits in the queue with nobody to
dispatch it. -/
def c9evs : List Ev :=
  [.stopSet, .observeExit, .wExit, .stopCheckEmpty, .setup,
   .observeExit, .wExit, .submit "x" none 0]

/-- Final state of the C9 schedule. -/
def c9state : St := (run true init c9evs).getD init

/-- C9 counterexample: after stop and a new setup call, the restarted
worker is already terminated, the entry submitted after the restart is
still queued, and the sink has received nothing — the newly spawned
worker does not dispatch entries submitted after the restart. -/
theorem c9_counterexample :
    Reach init c9state ∧
    c9state.worker = WorkerPC.terminated ∧
    c9state.queue = [mkRecord "x" none 0] ∧
    c9state.sink = [] :=
  ⟨reach_of_run (show run true init c9evs = some c9state from rfl),
   by decide, by decide, by decide⟩

/-- C9 (amended): the stop signal permanently disables the pipeline
across restarts: no step — `setup_async_logging` included — ever clears
`should_stop`, and in the concrete restart scenario every future
without yet another setup call leaves the sink empty: the entry
submitted after the restart is never dispatched. -/
theorem c9_restart_does_not_reenable :
    (∀ (b : Bool) (s t : St), Step b s t → s.shouldStop = true →
      t.shouldStop = true) ∧
    (∀ t, ReachNoSetup c9state t → t.sink = []) := by
  constructor
  · intro b s t hstep hs
    cases hstep <;> first | exact hs | rfl
  · intro t ht
    have ht' : Relation.ReflTransGen (Step false) c9state t := ht
    have key : ∀ u, Relation.ReflTransGen (Step false) c9state u →
        u.worker = WorkerPC.terminated ∧ u.sink = [] := by
      intro u hu
      induction hu with
      | refl => exact ⟨by decide, by decide⟩
      | tail hs hstep ih =>
          obtain ⟨hw, hsink⟩ := ih
          cases hstep with
          | submit m e now => exact ⟨hw, hsink⟩
          | wkGet r rest hw' hq =>
              rw [hw] at hw'
              exact absurd hw' (by decide)
          | wkDispatchOk r ch hw' hres =>
              rw [hw] at hw'
              exact absurd hw' (by simp)
          | wkDispatchFault r ch e hw' hres =>
              rw [hw] at hw'
              exact absurd hw' (by simp)
          | wkResolveFault r e hw' hres =>
              rw [hw] at hw'
              exact absurd hw' (by simp)
          | wkObserveExit hw' hs' hq =>
              rw [hw] at hw'
              exact absurd hw' (by decide)
          | wkExit hw' =>
              rw [hw] at hw'
              exact absurd hw' (by decide)
          | stopSet h => exact ⟨hw, hsink⟩
          | stopCheckEmpty h hq => exact ⟨hw, hsink⟩
          | stopCheckNonempty h hq => exact ⟨hw, hsink⟩
          | stopJoin h hu => exact ⟨hw, hsink⟩
          | setupRestart hb hw' => exact absurd hb (by decide)
    exact (key t ht').2

/-- C9 witness: the flag-permanence part applied to a concrete
submission step out of the post-restart state, and the never-dispatched
part applied to the post-restart state itself. -/
theorem c9_restart_witness :
    ({ c9state with
        queue := c9state.queue ++ [mkRecord "y" none 1],
        subs := c9state.subs ++ [mkRecord "y" none 1],
        unfinished := c9state.unfinished + 1 } : St).shouldStop = true ∧
    c9state.sink = [] :=
  ⟨c9_restart_does_not_reenable.1 true c9state _
      (Step.submit c9state "y" none 1) (by decide),
   c9_restart_does_not_reenable.2 c9state Relation.ReflTransGen.refl⟩

end AsyncLogging
